import Mathlib

/-!
Shallow embedding of the orchestration core of the documentai-sheets-plugin
repository (`src/core.js`, class `DataGathererFramework`), together with
theorems settling the frozen claims about it.

Conventions of the embedding:
* machine integers and `Date.now()` timestamps are `Nat`;
* a JavaScript value that is "an `Error` object or a plain value" is the sum
  type `ErrVal`; thrown values are `JsError` (an object with a `message`);
* code that may throw returns `Except JsError _`;
* the connector's `appendDataList` calls are observed as a trace: `execute`
  returns both the result list and the ordered list of append calls.
-/

set_option linter.unusedVariables false

namespace DocaiSheetsPlugin

/-- Modelled from the spec: the three-valued status domain of
`src/common/status` (module not present under src/): `SUBMITTED` (work
accepted, not yet complete), `RETRIEVED` (complete), `ERROR` (failed). -/
inductive Status where
  | SUBMITTED
  | RETRIEVED
  | ERROR
deriving DecidableEq

/-- A thrown JavaScript `Error` value, as produced by gatherers and extension
hooks: carries a `message` string. -/
structure JsError where
  message : String
deriving DecidableEq

/-- A value appearing in a gatherer response `errors` array: either an `Error`
object carrying a message, or a plain value used as its own message
(core.js:507-513 distinguishes the two by probing `error.message`). -/
inductive ErrVal where
  | exn (e : JsError)
  | str (s : String)
deriving DecidableEq

/-- The `errors` property of a gatherer response: absent, a single error, or an
array of errors (the spec notes `errors`, if present, may be a single error or
an ordered sequence). -/
inductive ErrorsField where
  | absent
  | single (e : ErrVal)
  | arr (es : List ErrVal)
deriving DecidableEq

/-- core.js:503-504: `let errors = result[gathererName].errors || [];
if (!Array.isArray(errors)) errors = [errors]`. An absent or falsy value
(the empty string is falsy) becomes `[]`; a single value becomes a
one-element array. -/
def normalizeErrors : ErrorsField → List ErrVal
  | .absent => []
  | .single (.str "") => []
  | .single e => [e]
  | .arr es => es

/-- `source.gatherer` / `options.gatherer`: a single name string or an array
of name strings. -/
inductive GathererField where
  | name (s : String)
  | names (l : List String)
deriving DecidableEq

/-- core.js:190-198 `parseGathererNames`: a falsy value (absent or the empty
string) yields `[]`; an array is returned as is; a string is split on `,`. -/
def parseGathererNames : Option GathererField → List String
  | none => []
  | some (.name s) => if s = "" then [] else s.splitOn ","
  | some (.names l) => l

/-- `[...new Set(xs)]` (core.js:304, 500): deduplicate keeping the first
occurrence of each element, preserving order. -/
def dedupKeepFirst (l : List String) : List String :=
  l.foldl (fun acc a => if a ∈ acc then acc else acc ++ [a]) []

/-- The contract returned by a gatherer invocation (spec `GathererResponse`);
`data`/`metrics`/`metadata` payloads are irrelevant to the claims and omitted. -/
structure GathererResponse where
  status : Status
  statusText : String := ""
  errors : ErrorsField := .absent
deriving DecidableEq

/-- Self-scheduling state on a Source: `{frequency, nextTriggerTimestamp}`. -/
structure Recurring where
  frequency : Option String := none
  nextTriggerTimestamp : Option Nat := none
deriving DecidableEq

/-- A unit of work. `errors` is the slot assigned by the `beforeRun` phase
(core.js:290 `source.errors = extResponse.errors`). -/
structure Source where
  label : String := ""
  gatherer : Option GathererField := none
  errors : List JsError := []
  recurring : Option Recurring := none
deriving DecidableEq

/-- An entry of `Result.errors`: the engine stores provenance-tagged strings
(from `getOverallErrors`, core.js:316) and raw exception objects (seeded at
creation from `source.errors`, core.js:427, and concatenated from the
`afterRun` hook response, core.js:323) in the same array. -/
inductive ResultError where
  | tagged (s : String)
  | raw (e : JsError)
deriving DecidableEq

/-- The per-source output record (core.js:417-431 plus the fields assigned
during the pass). `gathererResults` models the dynamic `result[gathererName]`
sub-records as an association list. `type` is only written by the
spec-modelled Recurrence Scheduler ("recurring" vs "single"). -/
structure Result where
  id : Nat
  gatherer : Option GathererField
  status : Status
  label : String
  createdTimestamp : Nat
  modifiedTimestamp : Nat
  errors : List ResultError
  gathererResults : List (String × GathererResponse) := []
  type : String := "single"
deriving DecidableEq

/-- core.js:417-431 `createNewResult`: stamps id and both timestamps from the
clock, copies `gatherer` and `label`, seeds `errors` from `source.errors || []`
(the exception objects attached by `beforeRun`). -/
def createNewResult (source : Source) (nowtime : Nat) : Result :=
  { id := nowtime
    gatherer := source.gatherer
    status := Status.SUBMITTED
    label := source.label
    createdTimestamp := nowtime
    modifiedTimestamp := nowtime
    errors := source.errors.map ResultError.raw
    gathererResults := [] }

/-- The context record passed to extension lifecycle hooks. -/
structure ExtContext where
  source : Option Source := none
  result : Option Result := none
  sources : List Source := []
  results : List Result := []

/-- A registered extension: for a hook name, either it does not define the
hook (`none`), or invoking the hook on a context either returns normally or
throws a `JsError`. -/
structure Extension where
  hook : String → Option (ExtContext → Except JsError Unit)

/-- The value returned by `runExtensions`: the collected errors, plus a ghost
trace of the extensions whose hook body was actually invoked (in order). -/
structure ExtResponse where
  errors : List JsError
  invoked : List String
deriving DecidableEq

/-- `this.extensions[extName]` property lookup on the extension registry. -/
def lookupExt (registry : List (String × Extension)) (extName : String) :
    Option Extension :=
  registry.lookup extName

/-- The body of the `forEach` in core.js:362-373: skip an extension that is
not registered or does not define `functionName`; otherwise invoke the hook,
catching a thrown error and appending it to the collected error list. -/
def runExtensionsStep (registry : List (String × Extension))
    (functionName : String) (context : ExtContext) (acc : ExtResponse)
    (extName : String) : ExtResponse :=
  match lookupExt registry extName with
  | none => acc
  | some extension =>
    match extension.hook functionName with
    | none => acc
    | some f =>
      match f context with
      | .ok _ => { acc with invoked := acc.invoked ++ [extName] }
      | .error e =>
        { errors := acc.errors ++ [e], invoked := acc.invoked ++ [extName] }

/-- core.js:359-378 `runExtensions`: iterate the extension names in order,
collecting the errors of throwing hooks. -/
def runExtensions (registry : List (String × Extension))
    (extensions : List String) (functionName : String) (context : ExtContext) :
    ExtResponse :=
  extensions.foldl (runExtensionsStep registry functionName context)
    { errors := [], invoked := [] }

/-- A gatherer instance: its synchronous `run(source, options)` capability,
which may throw. -/
structure Gatherer where
  run : Source → Except JsError GathererResponse

/-- The engine state relevant to the claims: the extension registry
(core.js:89-121), the gatherer resolution function `getGatherer`
(core.js:148-182; resolution may throw), the write-back batch size
(core.js:130), and the framework-wide gatherer names (core.js:55). -/
structure Framework where
  extensions : List (String × Extension)
  resolveGatherer : String → Except JsError Gatherer
  batchUpdateBuffer : Nat
  overallGathererNames : List String := ["docai"]

/-- core.js:130 `this.batchUpdateBuffer = coreConfig.batchUpdateBuffer || 10`:
JavaScript `||` treats a configured `0` exactly like an absent value, so both
yield the default `10`. -/
def initBatchUpdateBuffer (configured : Option Nat) : Nat :=
  match configured with
  | none => 10
  | some b => if b = 0 then 10 else b

/-- core.js:392-409 `runGatherer`: resolve the gatherer and call its `run`;
any throw from either step is converted into an `ERROR` response whose
`statusText` is the exception's message and whose `errors` array contains the
exception. The function is total: it never propagates a throw. -/
def runGatherer (fw : Framework) (source : Source) (gathererName : String) :
    GathererResponse :=
  match (fw.resolveGatherer gathererName).bind (fun g => g.run source) with
  | .ok response => response
  | .error e =>
    { status := Status.ERROR
      statusText := e.message
      errors := .arr [ErrVal.exn e] }

/-- core.js:476-488 `getOverallStatus`: `RETRIEVED` when every status is
`RETRIEVED` (vacuously so for the empty list), else `ERROR` when some status
is `ERROR`, else `SUBMITTED`. -/
def getOverallStatus (statuses : List Status) : Status :=
  if (statuses.filter (fun s => s == Status.RETRIEVED)).length = statuses.length then
    Status.RETRIEVED
  else if 0 < (statuses.filter (fun s => s == Status.ERROR)).length then
    Status.ERROR
  else
    Status.SUBMITTED

/-- core.js:507-513: one error entry rendered with its gatherer-name tag. A
value with a truthy `message` contributes the message; otherwise the value's
string coercion is used (an `Error` with an empty message coerces to
`"Error"`; a plain string is itself). -/
def errLine (gathererName : String) (e : ErrVal) : String :=
  match e with
  | .exn err =>
    if err.message = "" then "[" ++ gathererName ++ "] " ++ "Error"
    else "[" ++ gathererName ++ "] " ++ err.message
  | .str s => "[" ++ gathererName ++ "] " ++ s

/-- core.js:494-516 `getOverallErrors`: for each distinct gatherer name from
`result.gatherer` plus the framework-wide names, read that sub-result's
`errors`, normalize, tag each entry with `"[name] "`, concatenate, and drop
falsy (empty) entries. Note it reads only the gatherer sub-records, never the
existing `result.errors`. This helper is the per-name body of the loop:
absent sub-records contribute nothing. -/
def gathererErrorLines (result : Result) (gathererName : String) : List String :=
  match result.gathererResults.lookup gathererName with
  | none => []
  | some resp => (normalizeErrors resp.errors).map (errLine gathererName)

/-- core.js:494-516 continued: the fold over the deduplicated gatherer names,
followed by dropping falsy (empty) entries. -/
def getOverallErrors (fw : Framework) (result : Result) : List String :=
  let gathererNames := dedupKeepFirst
    (parseGathererNames result.gatherer ++ fw.overallGathererNames)
  (gathererNames.foldl
      (fun acc gathererName => acc ++ gathererErrorLines result gathererName)
      []).filter (fun e => e != "")

/-- The per-pass options relevant to the claims (core.js:280-303):
`options.gatherer` and `options.extensions`. -/
structure RunOptions where
  gatherer : Option GathererField := none
  extensions : Option (List String) := none

/-- core.js:302-310: the deduplicated union of `source.gatherer` and
`options.gatherer` names is iterated in order; each invocation's response is
attached under `result[gathererName]` and its status pushed onto the status
list. -/
def runSourceGatherers (fw : Framework) (optGatherer : Option GathererField)
    (source : Source) (r0 : Result) : Result × List Status :=
  let gathererNames := dedupKeepFirst
    (parseGathererNames source.gatherer ++ parseGathererNames optGatherer)
  gathererNames.foldl (fun acc gathererName =>
    let response := runGatherer fw source gathererName
    ({ acc.1 with
        gathererResults := acc.1.gathererResults ++ [(gathererName, response)] },
     acc.2 ++ [response.status])) (r0, [])

/-- core.js:298-316: the per-source result just before the `afterRun` hook:
created, gatherer sub-results attached, overall status reduced, and `errors`
overwritten with the output of `getOverallErrors`. -/
def preAfterRunResult (fw : Framework) (options : RunOptions) (now : Nat)
    (source : Source) : Result :=
  let pr := runSourceGatherers fw options.gatherer source (createNewResult source now)
  let r2 := { pr.1 with status := getOverallStatus pr.2 }
  { r2 with errors := (getOverallErrors fw r2).map ResultError.tagged }

/-- core.js:298-323: one iteration of the source loop producing the finalized
Result: the pre-`afterRun` result with the `afterRun` hook response's errors
concatenated (as raw exception objects) onto `result.errors`. -/
def processSource (fw : Framework) (extNames : List String)
    (options : RunOptions) (now : Nat) (source : Source) : Result :=
  let r3 := preAfterRunResult fw options now source
  let extResponse := runExtensions fw.extensions extNames "afterRun"
    { source := some source, result := some r3 }
  { r3 with errors := r3.errors ++ extResponse.errors.map ResultError.raw }

/-- core.js:294-337: the source loop with the pending-write buffer. Returns
`(allNewResults, append calls made inside the loop, final buffer)`. A flush
happens when `batchUpdateBuffer` is truthy (nonzero) and the buffer has
reached it (core.js:330-336). -/
def executeLoop (fw : Framework) (extNames : List String) (options : RunOptions)
    (now : Nat) : List Source → List Result →
    List Result × List (List Result) × List Result
  | [], buffer => ([], [], buffer)
  | source :: rest, buffer =>
    let newResult := processSource fw extNames options now source
    let buffer' := buffer ++ [newResult]
    if fw.batchUpdateBuffer ≠ 0 ∧ fw.batchUpdateBuffer ≤ buffer'.length then
      let nxt := executeLoop fw extNames options now rest []
      (newResult :: nxt.1, buffer' :: nxt.2.1, nxt.2.2)
    else
      let nxt := executeLoop fw extNames options now rest buffer'
      (newResult :: nxt.1, nxt.2.1, nxt.2.2)

/-- core.js:288-291: the `beforeRun` phase assigns each source's `errors` from
the hook response before the main loop starts. -/
def attachBeforeRunErrors (fw : Framework) (extNames : List String)
    (source : Source) : Source :=
  { source with
      errors := (runExtensions fw.extensions extNames "beforeRun"
        { source := some source }).errors }

/-- The observable outcome of one `execute` pass: the returned results and the
ordered trace of `connector.appendDataList` calls. -/
structure ExecTrace where
  results : List Result
  appendCalls : List (List Result)
deriving DecidableEq

/-- core.js:279-343 `execute`: default the extension list to the registry
keys, run the `beforeRun` phase over all sources, run the main loop, and
always make one final append call with the remaining buffer (core.js:340). -/
def execute (fw : Framework) (sources : List Source) (options : RunOptions)
    (now : Nat) : ExecTrace :=
  let extNames := options.extensions.getD (fw.extensions.map Prod.fst)
  let sources2 := sources.map (attachBeforeRunErrors fw extNames)
  let (all, calls, fb) := executeLoop fw extNames options now sources2 []
  { results := all, appendCalls := calls ++ [fb] }

/-- Modelled from the spec: the frequency-to-duration table of
`src/common/frequency` (module not present under src/), in milliseconds. -/
def frequencyDuration : String → Option Nat
  | "hourly" => some (60 * 60 * 1000)
  | "daily" => some (24 * 60 * 60 * 1000)
  | "weekly" => some (7 * 24 * 60 * 60 * 1000)
  | _ => none

/-- Modelled from the spec: `isDue` for the recurring pass (the `recurring`
method is not present under src/) — a source is due if `recurring.frequency`
is set and `nextTriggerTimestamp` is absent/null or has passed. -/
def isDueRecurring (source : Source) (now : Nat) : Bool :=
  match source.recurring with
  | none => false
  | some rec =>
    rec.frequency.isSome &&
      (match rec.nextTriggerTimestamp with
       | none => true
       | some t => t ≤ now)

/-- Modelled from the spec: the reschedule step of the Recurrence Scheduler —
for a source that was due and carries a frequency with a known duration,
set `nextTriggerTimestamp` to `now` plus the frequency's duration. -/
def advanceSource (now : Nat) (source : Source) : Source :=
  if isDueRecurring source now then
    match source.recurring with
    | some rec =>
      match rec.frequency with
      | some f =>
        match frequencyDuration f with
        | some d =>
          { source with
              recurring := some { rec with nextTriggerTimestamp := some (now + d) } }
        | none => source
      | none => source
    | none => source
  else source

/-- Modelled from the spec: `runRecurring` (the `recurring` method, not
present under src/) — snapshot `now`, select the due sources, run the
Execution Engine over exactly those, tagging each created Result's type as
"recurring", and advance every due source's `nextTriggerTimestamp`. Returns
the produced results and the rewritten source list. -/
def runRecurring (fw : Framework) (sources : List Source) (options : RunOptions)
    (now : Nat) : List Result × List Source :=
  let dueSources := sources.filter (fun s => isDueRecurring s now)
  let results := (execute fw dueSources options now).results.map
    (fun r => { r with type := "recurring" })
  let updated := sources.map (advanceSource now)
  (results, updated)

/-! ## Observation helpers for the hook runner -/

/-- Whether `runExtensions` will actually invoke `extName`'s hook: the
extension is registered and defines `functionName` (core.js:364-366). -/
def hookApplicable (registry : List (String × Extension)) (functionName : String)
    (extName : String) : Bool :=
  match lookupExt registry extName with
  | none => false
  | some extension => (extension.hook functionName).isSome

/-- The error `extName`'s hook contributes on this context, if any: `none`
when the extension is skipped or its hook returns normally, `some e` when the
hook throws `e` (core.js:367-372). -/
def hookThrowOutcome (registry : List (String × Extension)) (functionName : String)
    (context : ExtContext) (extName : String) : Option JsError :=
  match lookupExt registry extName with
  | none => none
  | some extension =>
    match extension.hook functionName with
    | none => none
    | some f =>
      match f context with
      | .ok _ => none
      | .error e => some e

/-! ## Concrete fixtures used by witnesses and counterexamples -/

/-- The exception thrown by the fixture hooks. -/
def eBoom : JsError := { message := "boom" }

/-- An extension defining only `afterRun`, which always throws. -/
def throwingAfterRunExt : Extension :=
  { hook := fun functionName =>
      if functionName = "afterRun" then
        some (fun _ => Except.error eBoom)
      else none }

/-- An extension defining only `beforeRun`, which always throws. -/
def throwingBeforeRunExt : Extension :=
  { hook := fun functionName =>
      if functionName = "beforeRun" then
        some (fun _ => Except.error eBoom)
      else none }

/-- A source carrying daily recurrence state that has never been armed. -/
def dailySource : Source :=
  { recurring := some { frequency := some "daily", nextTriggerTimestamp := none } }

/-- A source with no gatherer names and no recurrence state. -/
def plainSource : Source := {}

/-- A gatherer resolution function on which every lookup throws (as
`getGatherer` does for an unknown name, core.js:174); never reached by
fixtures whose sources name no gatherer. -/
def failResolve : String → Except JsError Gatherer :=
  fun _ => Except.error { message := "Unable to load gatherer" }

/-- An engine with no extensions and batch size 1. -/
def fwB1 : Framework :=
  { extensions := [], resolveGatherer := failResolve, batchUpdateBuffer := 1 }

/-- An engine with no extensions and batch size 2. -/
def fwB2 : Framework :=
  { extensions := [], resolveGatherer := failResolve, batchUpdateBuffer := 2 }

/-- An engine whose batch size comes from a configured
`coreConfig.batchUpdateBuffer = 0` through the constructor default
(core.js:130). -/
def fwCfg0 : Framework :=
  { extensions := [], resolveGatherer := failResolve,
    batchUpdateBuffer := initBatchUpdateBuffer (some 0) }

/-- An engine whose `batchUpdateBuffer` field is 0 directly — the state the
code comment (core.js:126-129) describes as "write back after all
iteration". -/
def fwField0 : Framework :=
  { extensions := [], resolveGatherer := failResolve, batchUpdateBuffer := 0 }

/-- An engine with a single extension whose `afterRun` hook throws. -/
def fwAfterThrow : Framework :=
  { extensions := [("ext1", throwingAfterRunExt)],
    resolveGatherer := failResolve, batchUpdateBuffer := 10 }

/-- An engine with a single extension whose `beforeRun` hook throws. -/
def fwBeforeThrow : Framework :=
  { extensions := [("ext1", throwingBeforeRunExt)],
    resolveGatherer := failResolve, batchUpdateBuffer := 10 }

/-- The single result of a pass of `fwAfterThrow` over `plainSource`. -/
def resAfterThrow : Result := processSource fwAfterThrow ["ext1"] {} 0 plainSource

/-- A registry for instantiating the hook-runner theorem: `extA`'s hook
throws, `extB` does not define the hook, `extC`'s hook succeeds. -/
def regABC : List (String × Extension) :=
  [("extA", throwingAfterRunExt),
   ("extB", { hook := fun _ => none }),
   ("extC", { hook := fun functionName =>
      if functionName = "afterRun" then some (fun _ => Except.ok ()) else none })]

/-- Ten identical sources. -/
def tenSources : List Source := List.replicate 10 plainSource

/-- Three identical sources. -/
def threeSources : List Source := [plainSource, plainSource, plainSource]

/-! ## Helper lemmas -/

theorem filter_length_eq_length_iff {α : Type} (p : α → Bool) :
    ∀ l : List α, ((l.filter p).length = l.length ↔ ∀ a ∈ l, p a = true) := by
  intro l
  induction l with
  | nil => simp
  | cons a l ih =>
    by_cases h : p a = true
    · simp [List.filter_cons, h, ih]
    · simp only [List.filter_cons, h, if_neg, Bool.false_eq_true, ite_false,
        List.length_cons]
      constructor
      · intro hlen
        exact absurd hlen
          (Nat.ne_of_lt (Nat.lt_succ_of_le (List.length_filter_le p l)))
      · intro hall
        exact absurd (hall a (by simp)) h

theorem filter_length_pos_iff {α : Type} (p : α → Bool) (l : List α) :
    0 < (l.filter p).length ↔ ∃ a ∈ l, p a = true := by
  rw [List.length_pos_iff_exists_mem]
  constructor
  · rintro ⟨a, ha⟩
    rw [List.mem_filter] at ha
    exact ⟨a, ha.1, ha.2⟩
  · rintro ⟨a, ha, hp⟩
    exact ⟨a, List.mem_filter.mpr ⟨ha, hp⟩⟩

theorem foldl_append_flatten {α β : Type} (f : α → List β) :
    ∀ (names : List α) (init : List β),
      names.foldl (fun acc n => acc ++ f n) init = init ++ (names.map f).flatten := by
  intro names
  induction names with
  | nil => intro init; simp
  | cons n ns ih => intro init; simp [List.foldl_cons, ih]

/-! ## C1: status reduction -/

/-- C1: for every non-empty list `S` of per-gatherer statuses,
`getOverallStatus` returns `RETRIEVED` iff every element of `S` is
`RETRIEVED`; returns `ERROR` iff not every element is `RETRIEVED` and some
element is `ERROR`; and returns `SUBMITTED` otherwise. -/
theorem getOverallStatus_spec (S : List Status) (hS : S ≠ []) :
    (getOverallStatus S = Status.RETRIEVED ↔ ∀ s ∈ S, s = Status.RETRIEVED) ∧
    (getOverallStatus S = Status.ERROR ↔
      ¬ (∀ s ∈ S, s = Status.RETRIEVED) ∧ ∃ s ∈ S, s = Status.ERROR) ∧
    (¬ (∀ s ∈ S, s = Status.RETRIEVED) → ¬ (∃ s ∈ S, s = Status.ERROR) →
      getOverallStatus S = Status.SUBMITTED) := by
  have hR : ((S.filter (fun s => s == Status.RETRIEVED)).length = S.length) ↔
      ∀ s ∈ S, s = Status.RETRIEVED := by
    rw [filter_length_eq_length_iff]
    simp
  have hE : (0 < (S.filter (fun s => s == Status.ERROR)).length) ↔
      ∃ s ∈ S, s = Status.ERROR := by
    rw [filter_length_pos_iff]
    simp
  unfold getOverallStatus
  by_cases h1 : (S.filter (fun s => s == Status.RETRIEVED)).length = S.length
  · rw [if_pos h1]
    refine ⟨iff_of_true rfl (hR.mp h1), ?_, ?_⟩
    · constructor
      · intro h; cases h
      · rintro ⟨hna, _⟩; exact absurd (hR.mp h1) hna
    · intro hna _; exact absurd (hR.mp h1) hna
  · rw [if_neg h1]
    by_cases h2 : 0 < (S.filter (fun s => s == Status.ERROR)).length
    · rw [if_pos h2]
      refine ⟨?_, ?_, ?_⟩
      · constructor
        · intro h; cases h
        · intro hall; exact absurd (hR.mpr hall) h1
      · constructor
        · intro _; exact ⟨fun hall => h1 (hR.mpr hall), hE.mp h2⟩
        · intro _; rfl
      · intro _ hne; exact absurd (hE.mp h2) hne
    · rw [if_neg h2]
      refine ⟨?_, ?_, ?_⟩
      · constructor
        · intro h; cases h
        · intro hall; exact absurd (hR.mpr hall) h1
      · constructor
        · intro h; cases h
        · rintro ⟨_, hex⟩; exact absurd (hE.mpr hex) h2
      · intro _ _; rfl

/-- Witness for C1 at the concrete input `[ERROR]`. -/
theorem getOverallStatus_spec_witness :
    (([Status.ERROR] : List Status) ≠ []) ∧
    ((getOverallStatus [Status.ERROR] = Status.RETRIEVED ↔
        ∀ s ∈ [Status.ERROR], s = Status.RETRIEVED) ∧
      (getOverallStatus [Status.ERROR] = Status.ERROR ↔
        ¬ (∀ s ∈ [Status.ERROR], s = Status.RETRIEVED) ∧
          ∃ s ∈ [Status.ERROR], s = Status.ERROR) ∧
      (¬ (∀ s ∈ [Status.ERROR], s = Status.RETRIEVED) →
        ¬ (∃ s ∈ [Status.ERROR], s = Status.ERROR) →
        getOverallStatus [Status.ERROR] = Status.SUBMITTED)) :=
  ⟨by decide, getOverallStatus_spec [Status.ERROR] (by decide)⟩

/-! ## The source loop: results, flush trace, batch sizes -/

theorem executeLoop_results (fw : Framework) (extNames : List String)
    (options : RunOptions) (now : Nat) :
    ∀ (sources : List Source) (buffer : List Result),
      (executeLoop fw extNames options now sources buffer).1 =
        sources.map (processSource fw extNames options now) := by
  intro sources
  induction sources with
  | nil => intro buffer; rfl
  | cons s rest ih =>
    intro buffer
    simp only [executeLoop, List.map_cons]
    split
    · simp [ih]
    · simp [ih]

theorem executeLoop_flatten (fw : Framework) (extNames : List String)
    (options : RunOptions) (now : Nat) :
    ∀ (sources : List Source) (buffer : List Result),
      (executeLoop fw extNames options now sources buffer).2.1.flatten ++
          (executeLoop fw extNames options now sources buffer).2.2 =
        buffer ++ (executeLoop fw extNames options now sources buffer).1 := by
  intro sources
  induction sources with
  | nil => intro buffer; simp [executeLoop]
  | cons s rest ih =>
    intro buffer
    simp only [executeLoop]
    split
    · simp [List.flatten_cons, List.append_assoc, ih]
    · simp [ih, List.append_assoc]

theorem executeLoop_batch_counts (fw : Framework) (extNames : List String)
    (options : RunOptions) (now : Nat) (hB : 0 < fw.batchUpdateBuffer) :
    ∀ (sources : List Source) (buffer : List Result),
      buffer.length < fw.batchUpdateBuffer →
      ((∀ c ∈ (executeLoop fw extNames options now sources buffer).2.1,
          c.length = fw.batchUpdateBuffer) ∧
        (executeLoop fw extNames options now sources buffer).2.1.length =
          (buffer.length + sources.length) / fw.batchUpdateBuffer ∧
        (executeLoop fw extNames options now sources buffer).2.2.length =
          (buffer.length + sources.length) % fw.batchUpdateBuffer) := by
  intro sources
  induction sources with
  | nil =>
    intro buffer hbuf
    refine ⟨by simp [executeLoop], ?_, ?_⟩
    · simp [executeLoop, Nat.div_eq_of_lt hbuf]
    · simp [executeLoop, Nat.mod_eq_of_lt hbuf]
  | cons s rest ih =>
    intro buffer hbuf
    simp only [executeLoop, List.length_cons]
    split
    case isTrue hc =>
      have hlen : buffer.length + 1 = fw.batchUpdateBuffer := by
        have h2 := hc.2
        simp only [List.length_append, List.length_cons, List.length_nil] at h2
        omega
      have harith : buffer.length + (rest.length + 1) =
          rest.length + fw.batchUpdateBuffer := by omega
      obtain ⟨ha, hlenc, hlenf⟩ := ih [] (by simpa using hB)
      refine ⟨?_, ?_, ?_⟩
      · intro c hcmem
        rcases List.mem_cons.mp hcmem with h | h
        · subst h
          simp only [List.length_append, List.length_cons, List.length_nil]
          omega
        · exact ha c h
      · simp only [List.length_cons, hlenc, List.length_nil, Nat.zero_add,
          harith, Nat.add_div_right _ hB]
      · simp only [hlenf, List.length_nil, Nat.zero_add, harith,
          Nat.add_mod_right]
    case isFalse hc =>
      have hble : ¬ fw.batchUpdateBuffer ≤ (buffer ++
          [processSource fw extNames options now s]).length := by
        intro hle
        exact hc ⟨Nat.pos_iff_ne_zero.mp hB, hle⟩
      have hbuf2 : (buffer ++ [processSource fw extNames options now s]).length <
          fw.batchUpdateBuffer := Nat.lt_of_not_le hble
      obtain ⟨ha, hlenc, hlenf⟩ := ih _ hbuf2
      have hnum : (buffer ++ [processSource fw extNames options now s]).length +
          rest.length = buffer.length + (rest.length + 1) := by
        simp only [List.length_append, List.length_cons, List.length_nil]
        omega
      refine ⟨ha, ?_, ?_⟩
      · rw [hlenc, hnum]
      · rw [hlenf, hnum]

/-! ## C2: batched appends -/

/-- C2 counterexample: with batch size `B = 1` and `N = 1` source, the
destination receives 2 append calls (the in-loop flush plus the unconditional
terminating flush of core.js:340, here empty), not `ceil(1/1) = 1` as the
claim states. -/
theorem execute_ceil_count_cex :
    (execute fwB1 [plainSource] {} 0).appendCalls.length = 2 ∧
    (1 + 1 - 1) / 1 = 1 ∧
    (execute fwB1 [plainSource] {} 0).appendCalls.length ≠ (1 + 1 - 1) / 1 := by
  refine ⟨by decide, by decide, by decide⟩

/-- C2 (amended): for every pass over `N` sources with batch size `B > 0`,
the destination's `appendDataList` is called exactly `N / B + 1` times —
`N / B` full batches of exactly `B` items during the loop, plus the
unconditional terminating call carrying the remaining `N % B` items (empty
when `B` divides `N`) — and the concatenation of all calls, in call order,
equals the full result list of the pass in source input order. This equals
`ceil(N/B)` except when `B` divides `N`, where it is `ceil(N/B) + 1`. -/
theorem execute_batching (fw : Framework) (sources : List Source)
    (options : RunOptions) (now : Nat)
    (hB : 0 < fw.batchUpdateBuffer) (hN : sources ≠ []) :
    (execute fw sources options now).results.length = sources.length ∧
    (execute fw sources options now).appendCalls.flatten =
      (execute fw sources options now).results ∧
    (execute fw sources options now).appendCalls.length =
      sources.length / fw.batchUpdateBuffer + 1 ∧
    (∀ c ∈ (execute fw sources options now).appendCalls.dropLast,
      c.length = fw.batchUpdateBuffer) ∧
    (∃ lastCall,
      (execute fw sources options now).appendCalls.getLast? = some lastCall ∧
      lastCall.length = sources.length % fw.batchUpdateBuffer) := by
  unfold execute
  set extNames := options.extensions.getD (fw.extensions.map Prod.fst) with hext
  set sources2 := sources.map (attachBeforeRunErrors fw extNames) with hs2
  have hs2len : sources2.length = sources.length := by
    rw [hs2, List.length_map]
  have hres := executeLoop_results fw extNames options now sources2 []
  have hflat := executeLoop_flatten fw extNames options now sources2 []
  obtain ⟨hfull, hcalls, hfb⟩ :=
    executeLoop_batch_counts fw extNames options now hB sources2 [] (by simpa using hB)
  refine ⟨?_, ?_, ?_, ?_, ?_⟩
  · simp only [hres, List.length_map, hs2len]
  · simp only [List.flatten_append, List.flatten_cons, List.flatten_nil,
      List.append_nil]
    simpa using hflat
  · simp only [List.length_append, List.length_cons, List.length_nil, hcalls,
      List.length_nil, Nat.zero_add, hs2len]
  · intro c hc
    have : c ∈ (executeLoop fw extNames options now sources2 []).2.1 := by
      simpa using hc
    exact hfull c this
  · refine ⟨(executeLoop fw extNames options now sources2 []).2.2,
      List.getLast?_concat _, ?_⟩
    simpa [hs2len] using hfb

/-- Witness for C2 (amended) at `B = 2`, `N = 3`: append calls of sizes
`[2, 1]`, i.e. `3 / 2 + 1 = 2` calls. -/
theorem execute_batching_witness :
    (0 < fwB2.batchUpdateBuffer) ∧ (threeSources ≠ []) ∧
    ((execute fwB2 threeSources {} 0).results.length = threeSources.length ∧
      (execute fwB2 threeSources {} 0).appendCalls.flatten =
        (execute fwB2 threeSources {} 0).results ∧
      (execute fwB2 threeSources {} 0).appendCalls.length =
        threeSources.length / fwB2.batchUpdateBuffer + 1 ∧
      (∀ c ∈ (execute fwB2 threeSources {} 0).appendCalls.dropLast,
        c.length = fwB2.batchUpdateBuffer) ∧
      (∃ lastCall,
        (execute fwB2 threeSources {} 0).appendCalls.getLast? = some lastCall ∧
        lastCall.length = threeSources.length % fwB2.batchUpdateBuffer)) :=
  ⟨by decide, by decide, execute_batching fwB2 threeSources {} 0 (by decide) (by decide)⟩

/-! ## C3: configured batch size 0 -/

/-- C3 (code bug): the comment at core.js:126-129 and the spec say a batch
size of 0 means "write back only once, after all iterations", and `execute`
(core.js:330) indeed skips in-loop flushes when the field is 0 — but the
constructor (core.js:130) coerces a configured `batchUpdateBuffer = 0` to the
default 10 via JavaScript `||`, so a pass over 10 sources constructed with
batch size 0 performs 2 append calls instead of the single promised call.
The third conjunct shows the single-call behavior the claim describes does
hold when the field itself is 0. -/
theorem batchSizeZero_coerced_to_default :
    initBatchUpdateBuffer (some 0) = 10 ∧
    (execute fwCfg0 tenSources {} 0).appendCalls.length = 2 ∧
    (execute fwField0 tenSources {} 0).appendCalls =
      [(execute fwField0 tenSources {} 0).results] := by
  refine ⟨rfl, by decide, by decide⟩

/-! ## C8: the terminating flush -/

/-- C8: every pass ends with one final `appendDataList` call carrying the
results left in the buffer (possibly none), so the destination always
observes at least one append call; the loop flushes plus this terminating
call carry exactly the pass's results. -/
theorem execute_final_flush (fw : Framework) (sources : List Source)
    (options : RunOptions) (now : Nat) :
    1 ≤ (execute fw sources options now).appendCalls.length ∧
    ∃ loopCalls finalCall,
      (execute fw sources options now).appendCalls = loopCalls ++ [finalCall] ∧
      loopCalls.flatten ++ finalCall = (execute fw sources options now).results := by
  unfold execute
  set extNames := options.extensions.getD (fw.extensions.map Prod.fst) with hext
  set sources2 := sources.map (attachBeforeRunErrors fw extNames) with hs2
  constructor
  · simp
  · refine ⟨(executeLoop fw extNames options now sources2 []).2.1,
      (executeLoop fw extNames options now sources2 []).2.2, rfl, ?_⟩
    simpa using executeLoop_flatten fw extNames options now sources2 []

/-! ## C4: gatherer failures are converted, never propagated -/

/-- C4: for every source, gatherer name and engine state, if resolving the
gatherer or calling its `run` throws, `runGatherer` returns a response with
status `ERROR`, `statusText` equal to the exception's message, and an
`errors` array containing that exception. `runGatherer` is a total function
of its inputs, so it never propagates an exception to its caller. -/
theorem runGatherer_error_conversion (fw : Framework) (source : Source)
    (gathererName : String) (e : JsError)
    (h : (fw.resolveGatherer gathererName).bind (fun g => g.run source) =
      Except.error e) :
    (runGatherer fw source gathererName).status = Status.ERROR ∧
    (runGatherer fw source gathererName).statusText = e.message ∧
    (runGatherer fw source gathererName).errors =
      ErrorsField.arr [ErrVal.exn e] := by
  unfold runGatherer
  rw [h]
  exact ⟨rfl, rfl, rfl⟩

/-- Witness for C4: resolving `"docai"` through `failResolve` throws, and the
response carries the converted error. -/
theorem runGatherer_error_conversion_witness :
    ((fwB1.resolveGatherer "docai").bind (fun g => g.run plainSource) =
      Except.error { message := "Unable to load gatherer" }) ∧
    ((runGatherer fwB1 plainSource "docai").status = Status.ERROR ∧
      (runGatherer fwB1 plainSource "docai").statusText =
        (JsError.mk "Unable to load gatherer").message ∧
      (runGatherer fwB1 plainSource "docai").errors =
        ErrorsField.arr [ErrVal.exn { message := "Unable to load gatherer" }]) :=
  ⟨rfl, runGatherer_error_conversion fwB1 plainSource "docai"
    { message := "Unable to load gatherer" } rfl⟩

/-! ## C5: hook failures are isolated -/

theorem runExtensions_foldl (registry : List (String × Extension))
    (functionName : String) (context : ExtContext) :
    ∀ (extensions : List String) (acc : ExtResponse),
      extensions.foldl (runExtensionsStep registry functionName context) acc =
        { errors := acc.errors ++
            extensions.filterMap (hookThrowOutcome registry functionName context),
          invoked := acc.invoked ++
            extensions.filter (hookApplicable registry functionName) } := by
  intro extensions
  induction extensions with
  | nil => intro acc; simp
  | cons extName rest ih =>
    intro acc
    simp only [List.foldl_cons, List.filterMap_cons, List.filter_cons]
    rw [ih]
    cases hlk : lookupExt registry extName with
    | none =>
      simp [runExtensionsStep, hookThrowOutcome, hookApplicable, hlk]
    | some extension =>
      cases hhk : extension.hook functionName with
      | none =>
        simp [runExtensionsStep, hookThrowOutcome, hookApplicable, hlk, hhk]
      | some f =>
        cases hf : f context with
        | ok u =>
          simp [runExtensionsStep, hookThrowOutcome, hookApplicable, hlk, hhk, hf]
        | error e =>
          simp [runExtensionsStep, hookThrowOutcome, hookApplicable, hlk, hhk, hf]

/-- C5: `runExtensions` invokes exactly the hooks of the extensions in the
given order that are registered and define the hook — a throw from one never
prevents the invocation of the later ones — and the returned error list is
exactly the thrown errors, in order. It is a total function, so it never
throws; unregistered extensions and extensions without the hook are not
invoked and contribute no error. -/
theorem runExtensions_spec (registry : List (String × Extension))
    (extensions : List String) (functionName : String) (context : ExtContext) :
    ((runExtensions registry extensions functionName context).invoked =
      extensions.filter (hookApplicable registry functionName)) ∧
    ((runExtensions registry extensions functionName context).errors =
      extensions.filterMap (hookThrowOutcome registry functionName context)) ∧
    (∀ extName ∈ extensions, hookApplicable registry functionName extName = true →
      extName ∈ (runExtensions registry extensions functionName context).invoked) ∧
    (∀ extName, hookApplicable registry functionName extName = false →
      extName ∉ (runExtensions registry extensions functionName context).invoked ∧
      hookThrowOutcome registry functionName context extName = none) := by
  have hmain : runExtensions registry extensions functionName context =
      { errors :=
          extensions.filterMap (hookThrowOutcome registry functionName context),
        invoked := extensions.filter (hookApplicable registry functionName) } := by
    unfold runExtensions
    rw [runExtensions_foldl]
    simp
  refine ⟨by rw [hmain], by rw [hmain], ?_, ?_⟩
  · intro extName hmem happ
    rw [hmain]
    exact List.mem_filter.mpr ⟨hmem, happ⟩
  · intro extName happ
    constructor
    · rw [hmain]
      intro hmem
      have := (List.mem_filter.mp hmem).2
      rw [happ] at this
      cases this
    · cases hlk : lookupExt registry extName with
      | none => simp [hookThrowOutcome, hlk]
      | some extension =>
        simp only [hookApplicable, hlk] at happ
        cases hhk : extension.hook functionName with
        | none => simp [hookThrowOutcome, hlk, hhk]
        | some f =>
          rw [hhk] at happ
          simp at happ

/-- Witness for C5: instantiation at a registry where `extA`'s hook throws,
`extB` does not define the hook, and `extC`'s hook succeeds: all of `extA`
and `extC` are invoked, only `extA`'s error is collected. -/
theorem runExtensions_spec_witness :
    ((runExtensions regABC ["extA", "extB", "extC", "extD"] "afterRun" {}).invoked =
      ["extA", "extB", "extC", "extD"].filter (hookApplicable regABC "afterRun")) ∧
    ((runExtensions regABC ["extA", "extB", "extC", "extD"] "afterRun" {}).errors =
      ["extA", "extB", "extC", "extD"].filterMap
        (hookThrowOutcome regABC "afterRun" {})) ∧
    (∀ extName ∈ ["extA", "extB", "extC", "extD"],
      hookApplicable regABC "afterRun" extName = true →
      extName ∈ (runExtensions regABC ["extA", "extB", "extC", "extD"]
        "afterRun" {}).invoked) ∧
    (∀ extName, hookApplicable regABC "afterRun" extName = false →
      extName ∉ (runExtensions regABC ["extA", "extB", "extC", "extD"]
        "afterRun" {}).invoked ∧
      hookThrowOutcome regABC "afterRun" {} extName = none) :=
  runExtensions_spec regABC ["extA", "extB", "extC", "extD"] "afterRun" {}

/-! ## C6: provenance tagging of Result.errors -/

theorem errLine_shape (gathererName : String) (e : ErrVal) :
    ∃ m, errLine gathererName e = "[" ++ gathererName ++ "] " ++ m := by
  cases e with
  | exn err =>
    by_cases h : err.message = ""
    · exact ⟨"Error", by simp [errLine, h]⟩
    · exact ⟨err.message, by simp [errLine, h]⟩
  | str s => exact ⟨s, rfl⟩

theorem getOverallErrors_shape (fw : Framework) (result : Result) :
    ∀ msg ∈ getOverallErrors fw result,
      ∃ gathererName m, msg = "[" ++ gathererName ++ "] " ++ m := by
  intro msg hmsg
  simp only [getOverallErrors] at hmsg
  rw [foldl_append_flatten, List.nil_append] at hmsg
  have hmem := (List.mem_filter.mp hmsg).1
  rcases List.mem_flatten.mp hmem with ⟨lines, hlines, hmsgin⟩
  rcases List.mem_map.mp hlines with ⟨gathererName, hgn, rfl⟩
  cases hlk : result.gathererResults.lookup gathererName with
  | none =>
    simp only [gathererErrorLines, hlk] at hmsgin
    cases hmsgin
  | some resp =>
    simp only [gathererErrorLines, hlk] at hmsgin
    rcases List.mem_map.mp hmsgin with ⟨e, he, rfl⟩
    obtain ⟨m, hm⟩ := errLine_shape gathererName e
    exact ⟨gathererName, m, hm⟩

theorem preAfterRunResult_errors_shape (fw : Framework) (options : RunOptions)
    (now : Nat) (source : Source) :
    ∀ err ∈ (preAfterRunResult fw options now source).errors,
      ∃ gathererName msg,
        err = ResultError.tagged ("[" ++ gathererName ++ "] " ++ msg) := by
  intro err herr
  simp only [preAfterRunResult] at herr
  rcases List.mem_map.mp herr with ⟨msg, hmsg, rfl⟩
  obtain ⟨gathererName, m, hm⟩ := getOverallErrors_shape fw _ msg hmsg
  exact ⟨gathererName, m, by rw [hm]⟩

theorem processSource_errors_shape (fw : Framework) (extNames : List String)
    (options : RunOptions) (now : Nat) (source : Source) :
    ∀ err ∈ (processSource fw extNames options now source).errors,
      (∃ gathererName msg,
        err = ResultError.tagged ("[" ++ gathererName ++ "] " ++ msg)) ∨
      (∃ e, err = ResultError.raw e ∧
        e ∈ (runExtensions fw.extensions extNames "afterRun"
          { source := some source,
            result := some (preAfterRunResult fw options now source) }).errors) := by
  intro err herr
  simp only [processSource] at herr
  rcases List.mem_append.mp herr with h | h
  · exact Or.inl (preAfterRunResult_errors_shape fw options now source err h)
  · rcases List.mem_map.mp h with ⟨e, hmem, heq⟩
    exact Or.inr ⟨e, heq.symm, hmem⟩

/-- C6 (amended): every entry of a finalized Result's `errors` is either a
gatherer-derived string of the form `"[name] message"` (produced by
`getOverallErrors`) or a raw exception object concatenated verbatim — not a
prefixed string — from the `afterRun` hook response of that Result's source
(core.js:323). -/
theorem executeResult_errors_tagged (fw : Framework) (sources : List Source)
    (options : RunOptions) (now : Nat) :
    ∀ r ∈ (execute fw sources options now).results, ∀ err ∈ r.errors,
      (∃ gathererName msg,
        err = ResultError.tagged ("[" ++ gathererName ++ "] " ++ msg)) ∨
      (∃ e, err = ResultError.raw e ∧ ∃ s,
        e ∈ (runExtensions fw.extensions
          (options.extensions.getD (fw.extensions.map Prod.fst)) "afterRun"
          { source := some s,
            result := some (preAfterRunResult fw options now s) }).errors) := by
  intro r hr err herr
  have hres : (execute fw sources options now).results =
      (sources.map (attachBeforeRunErrors fw
          (options.extensions.getD (fw.extensions.map Prod.fst)))).map
        (processSource fw
          (options.extensions.getD (fw.extensions.map Prod.fst)) options now) := by
    simp only [execute]
    rw [executeLoop_results]
  rw [hres] at hr
  rcases List.mem_map.mp hr with ⟨s2, hs2, rfl⟩
  rcases processSource_errors_shape fw _ options now s2 err herr with h | ⟨e, heq, hmem⟩
  · exact Or.inl h
  · exact Or.inr ⟨e, heq, s2, hmem⟩

/-- C6 counterexample: with an extension whose `afterRun` hook throws, the
finalized Result's `errors` contains the raw exception object itself
(core.js:323 concatenates hook errors without prefixing), which is not a
string of the form `"[name] message]"` — it is not a string at all. -/
theorem executeResult_errors_cex :
    ((execute fwAfterThrow [plainSource] {} 0).results.map Result.errors =
      [[ResultError.raw eBoom]]) ∧
    (∀ s : String, ResultError.raw eBoom ≠ ResultError.tagged s) :=
  ⟨by decide, fun s h => nomatch h⟩

/-- Witness for C6 (amended), instantiated at the throwing-afterRun fixture:
the raw entry in the finalized Result is accounted for by the `afterRun`
hook response. -/
theorem executeResult_errors_tagged_witness :
    (∃ gathererName msg, ResultError.raw eBoom =
      ResultError.tagged ("[" ++ gathererName ++ "] " ++ msg)) ∨
    (∃ e, ResultError.raw eBoom = ResultError.raw e ∧ ∃ s,
      e ∈ (runExtensions fwAfterThrow.extensions
        (({} : RunOptions).extensions.getD (fwAfterThrow.extensions.map Prod.fst))
        "afterRun"
        { source := some s,
          result := some (preAfterRunResult fwAfterThrow {} 0 s) }).errors) :=
  executeResult_errors_tagged fwAfterThrow [plainSource] {} 0
    resAfterThrow (by decide) (ResultError.raw eBoom) (by decide)

/-! ## C7: beforeRun errors are seeded but then overwritten -/

/-- C7 (amended): `beforeRun` hook errors are attached to the source and
seeded into the new Result by `createNewResult` (core.js:427), but
core.js:316 then overwrites `Result.errors` with the output of
`getOverallErrors`, which reads only gatherer sub-results — so no seeded raw
exception survives into the finalized Result: every raw exception in the
final `errors` comes from the `afterRun` hook response instead. -/
theorem beforeRun_seed_overwritten (fw : Framework) (extNames : List String)
    (options : RunOptions) (now : Nat) (source : Source) :
    (createNewResult source now).errors = source.errors.map ResultError.raw ∧
    ∀ e : JsError,
      ResultError.raw e ∈ (processSource fw extNames options now source).errors →
      e ∈ (runExtensions fw.extensions extNames "afterRun"
        { source := some source,
          result := some (preAfterRunResult fw options now source) }).errors := by
  refine ⟨rfl, ?_⟩
  intro e he
  simp only [processSource] at he
  rcases List.mem_append.mp he with h | h
  · exfalso
    rcases preAfterRunResult_errors_shape fw options now source _ h with ⟨n, m, habs⟩
    cases habs
  · rcases List.mem_map.mp h with ⟨e2, hmem, heq⟩
    cases heq
    exact hmem

/-- C7 counterexample: a `beforeRun` hook throws `boom`; the error is
attached to the source and seeded into the created Result, yet the finalized
Result of the pass has an empty `errors` list — the seed was overwritten at
core.js:316 and never restored. -/
theorem beforeRun_seed_lost_cex :
    ((runExtensions fwBeforeThrow.extensions ["ext1"] "beforeRun"
        { source := some plainSource }).errors = [eBoom]) ∧
    ((createNewResult (attachBeforeRunErrors fwBeforeThrow ["ext1"] plainSource)
        0).errors = [ResultError.raw eBoom]) ∧
    ((execute fwBeforeThrow [plainSource] {} 0).results.map Result.errors =
      [[]]) :=
  ⟨by decide, by decide, by decide⟩

/-- Witness for C7 (amended): at the throwing-afterRun fixture, the raw
exception present in the finalized Result's errors is indeed found in the
`afterRun` hook response. -/
theorem beforeRun_seed_overwritten_witness :
    ((createNewResult plainSource 0).errors =
      plainSource.errors.map ResultError.raw) ∧
    (ResultError.raw eBoom ∈
      (processSource fwAfterThrow ["ext1"] {} 0 plainSource).errors) ∧
    (eBoom ∈ (runExtensions fwAfterThrow.extensions ["ext1"] "afterRun"
      { source := some plainSource,
        result := some (preAfterRunResult fwAfterThrow {} 0 plainSource) }).errors) :=
  ⟨(beforeRun_seed_overwritten fwAfterThrow ["ext1"] {} 0 plainSource).1,
    by decide,
    (beforeRun_seed_overwritten fwAfterThrow ["ext1"] {} 0 plainSource).2
      eBoom (by decide)⟩

/-! ## C9: recurrence scheduling (spec-modelled) -/

theorem frequencyDuration_pos (f : String) (d : Nat)
    (h : frequencyDuration f = some d) : 0 < d := by
  unfold frequencyDuration at h
  split at h <;> cases h <;> decide

theorem execute_results_length (fw : Framework) (sources : List Source)
    (options : RunOptions) (now : Nat) :
    (execute fw sources options now).results.length = sources.length := by
  simp only [execute]
  rw [executeLoop_results]
  simp

/-- C9 (spec-modelled): an advanced `nextTriggerTimestamp` is always strictly
greater than the advancing pass's start time; one recurring pass over a
source with a frequency and a null `nextTriggerTimestamp` produces exactly
one Result of type "recurring" and arms the source strictly in the future;
an immediately following recurring pass (before the new trigger time)
produces zero Results for that source. -/
theorem recurrence_schedule_spec (fw : Framework) (options : RunOptions)
    (now now2 : Nat) (source : Source) (freq : String) (d : Nat)
    (hrec : source.recurring =
      some { frequency := some freq, nextTriggerTimestamp := none })
    (hd : frequencyDuration freq = some d)
    (hnow2 : now ≤ now2) (hnot : now2 < now + d) :
    (∀ s : Source, advanceSource now s ≠ s →
      ∃ rec t, (advanceSource now s).recurring = some rec ∧
        rec.nextTriggerTimestamp = some t ∧ now < t) ∧
    ((runRecurring fw [source] options now).1.length = 1 ∧
      ∀ r ∈ (runRecurring fw [source] options now).1, r.type = "recurring") ∧
    (∀ s2 ∈ (runRecurring fw [source] options now).2,
      ∃ rec, s2.recurring = some rec ∧
        rec.nextTriggerTimestamp = some (now + d) ∧ now < now + d) ∧
    ((runRecurring fw (runRecurring fw [source] options now).2 options
        now2).1.length = 0) := by
  have hdisj : ∀ s : Source, advanceSource now s = s ∨
      ∃ rec t, (advanceSource now s).recurring = some rec ∧
        rec.nextTriggerTimestamp = some t ∧ now < t := by
    intro s
    unfold advanceSource
    split
    all_goals try exact Or.inl rfl
    split
    all_goals try exact Or.inl rfl
    split
    all_goals try exact Or.inl rfl
    split
    all_goals try exact Or.inl rfl
    rename_i hfd
    exact Or.inr ⟨_, _, rfl, rfl,
      Nat.lt_add_of_pos_right (frequencyDuration_pos _ _ hfd)⟩
  have hpart1 : ∀ s : Source, advanceSource now s ≠ s →
      ∃ rec t, (advanceSource now s).recurring = some rec ∧
        rec.nextTriggerTimestamp = some t ∧ now < t := by
    intro s hne
    rcases hdisj s with h | h
    · exact absurd h hne
    · exact h
  have hdue1 : isDueRecurring source now = true := by
    simp [isDueRecurring, hrec]
  have hfilter : [source].filter (fun s => isDueRecurring s now) = [source] := by
    simp [hdue1]
  have hlen1 : (runRecurring fw [source] options now).1.length = 1 := by
    simp only [runRecurring]
    rw [hfilter, List.length_map, execute_results_length]
    rfl
  have htype : ∀ r ∈ (runRecurring fw [source] options now).1,
      r.type = "recurring" := by
    intro r hr
    simp only [runRecurring] at hr
    rw [hfilter] at hr
    rcases List.mem_map.mp hr with ⟨r0, _, rfl⟩
    rfl
  have hadv : advanceSource now source =
      { source with
          recurring :=
            some { frequency := some freq,
                   nextTriggerTimestamp := some (now + d) } } := by
    simp [advanceSource, hdue1, hrec, hd]
  have hupd : (runRecurring fw [source] options now).2 =
      [{ source with
          recurring :=
            some { frequency := some freq,
                   nextTriggerTimestamp := some (now + d) } }] := by
    simp only [runRecurring, List.map_cons, List.map_nil]
    rw [hadv]
  have hpart3 : ∀ s2 ∈ (runRecurring fw [source] options now).2,
      ∃ rec, s2.recurring = some rec ∧
        rec.nextTriggerTimestamp = some (now + d) ∧ now < now + d := by
    intro s2 hs2
    rw [hupd] at hs2
    have heq := List.mem_singleton.mp hs2
    subst heq
    exact ⟨{ frequency := some freq, nextTriggerTimestamp := some (now + d) },
      rfl, rfl, Nat.lt_add_of_pos_right (frequencyDuration_pos freq d hd)⟩
  have hdue2 : isDueRecurring
      { source with
          recurring :=
            some { frequency := some freq,
                   nextTriggerTimestamp := some (now + d) } } now2 = false := by
    simp [isDueRecurring]
    omega
  have hfilter2 : [{ source with
      recurring :=
        some { frequency := some freq,
               nextTriggerTimestamp := some (now + d) } }].filter
        (fun s => isDueRecurring s now2) = [] := by
    simp [hdue2]
  have hpart4 : (runRecurring fw (runRecurring fw [source] options now).2
      options now2).1.length = 0 := by
    rw [hupd]
    simp only [runRecurring]
    rw [hfilter2, List.length_map, execute_results_length]
    rfl
  exact ⟨hpart1, ⟨hlen1, htype⟩, hpart3, hpart4⟩

/-- Witness for C9 at the daily fixture: pass start 0, duration 86400000 ms. -/
theorem recurrence_schedule_spec_witness :
    (dailySource.recurring =
      some { frequency := some "daily", nextTriggerTimestamp := none }) ∧
    (frequencyDuration "daily" = some 86400000) ∧ (0 ≤ 0) ∧ (0 < 0 + 86400000) ∧
    ((∀ s : Source, advanceSource 0 s ≠ s →
      ∃ rec t, (advanceSource 0 s).recurring = some rec ∧
        rec.nextTriggerTimestamp = some t ∧ 0 < t) ∧
    ((runRecurring fwB1 [dailySource] {} 0).1.length = 1 ∧
      ∀ r ∈ (runRecurring fwB1 [dailySource] {} 0).1, r.type = "recurring") ∧
    (∀ s2 ∈ (runRecurring fwB1 [dailySource] {} 0).2,
      ∃ rec, s2.recurring = some rec ∧
        rec.nextTriggerTimestamp = some (0 + 86400000) ∧ 0 < 0 + 86400000) ∧
    ((runRecurring fwB1 (runRecurring fwB1 [dailySource] {} 0).2 {}
        0).1.length = 0)) :=
  ⟨rfl, by decide, by decide, by decide,
    recurrence_schedule_spec fwB1 {} 0 0 dailySource "daily" 86400000
      rfl (by decide) (by decide) (by decide)⟩

/-! ## C10: zero gatherer names -/

theorem getOverallErrors_nil (fw : Framework) (r : Result)
    (h : r.gathererResults = []) : getOverallErrors fw r = [] := by
  simp only [getOverallErrors]
  rw [foldl_append_flatten, List.nil_append]
  have hf : ∀ n, gathererErrorLines r n = [] := by
    intro n
    simp [gathererErrorLines, h]
  have hmap : ∀ names : List String,
      (names.map (gathererErrorLines r)).flatten = [] := by
    intro names
    induction names with
    | nil => rfl
    | cons n ns ih => simp [hf n, ih]
  rw [hmap]
  rfl

theorem processSource_zeroGatherers (fw : Framework) (extNames : List String)
    (options : RunOptions) (now : Nat) (source : Source)
    (hs : source.gatherer = none) (ho : options.gatherer = none) :
    (processSource fw extNames options now source).status = Status.RETRIEVED ∧
    (preAfterRunResult fw options now source).errors = [] := by
  have hpr : runSourceGatherers fw options.gatherer source
      (createNewResult source now) = (createNewResult source now, []) := by
    unfold runSourceGatherers
    rw [hs, ho]
    rfl
  have hge : getOverallErrors fw
      { createNewResult source now with status := getOverallStatus [] } = [] :=
    getOverallErrors_nil fw _ rfl
  have hpre : preAfterRunResult fw options now source =
      { createNewResult source now with
          status := Status.RETRIEVED, errors := [] } := by
    simp only [preAfterRunResult, hpr]
    simp only [hge, List.map_nil]
    rfl
  refine ⟨?_, ?_⟩
  · simp only [processSource]
    rw [hpre]
  · rw [hpre]

/-- C10: `getOverallStatus` of the empty status list is `RETRIEVED`, so a
source for which neither `source.gatherer` nor `options.gatherer` names any
gatherer (zero gatherer invocations) still produces a Result whose overall
status is `RETRIEVED`, and the finalize step collects no error for the
missing gatherer configuration; the same holds for the Result built by a
pass after the `beforeRun` phase rewrote the source's error slot. -/
theorem zeroGatherers_retrieved (fw : Framework) (extNames : List String)
    (options : RunOptions) (now : Nat) (source : Source)
    (hs : source.gatherer = none) (ho : options.gatherer = none) :
    getOverallStatus [] = Status.RETRIEVED ∧
    (processSource fw extNames options now source).status = Status.RETRIEVED ∧
    (preAfterRunResult fw options now source).errors = [] ∧
    (processSource fw extNames options now
      (attachBeforeRunErrors fw extNames source)).status = Status.RETRIEVED := by
  have h1 := processSource_zeroGatherers fw extNames options now source hs ho
  have hs2 : (attachBeforeRunErrors fw extNames source).gatherer = none := by
    simp [attachBeforeRunErrors, hs]
  have h2 := processSource_zeroGatherers fw extNames options now _ hs2 ho
  exact ⟨rfl, h1.1, h1.2, h2.1⟩

/-- Witness for C10 at a source and options with no gatherer names. -/
theorem zeroGatherers_retrieved_witness :
    (plainSource.gatherer = none) ∧ (({} : RunOptions).gatherer = none) ∧
    (getOverallStatus [] = Status.RETRIEVED ∧
      (processSource fwB1 [] {} 0 plainSource).status = Status.RETRIEVED ∧
      (preAfterRunResult fwB1 {} 0 plainSource).errors = [] ∧
      (processSource fwB1 [] {} 0
        (attachBeforeRunErrors fwB1 [] plainSource)).status = Status.RETRIEVED) :=
  ⟨rfl, rfl, zeroGatherers_retrieved fwB1 [] {} 0 plainSource rfl rfl⟩

end DocaiSheetsPlugin
